import Mathlib

/-
Verification of the connection-resilient request/response engine implemented
in src/services/UnityBridgeClient.ts.

The client is shallowly embedded as a transition system: `ClientState` holds
the fields of the UnityBridgeClient class, `Sys` additionally tracks the
settlement slot of every promise ever registered (JS promises settle at most
once; a resolve/reject on an already-settled promise is a no-op, which the
`settle` function encodes).  Each method of the class becomes a Lean function
on `Sys`, and the externally triggered events (transport open/close/error,
inbound message, timer expiry, send-callback completion, public API calls)
become an `Event` type with an executable `step` function.
-/

set_option maxHeartbeats 1000000

namespace UnityBridge

/-- RECONNECT_DELAY_MS from the source. -/
def RECONNECT_DELAY_MS : Nat := 5000

/-- PING_INTERVAL_MS from the source. -/
def PING_INTERVAL_MS : Nat := 25000

/-- COMMAND_TIMEOUT_MS from the source. -/
def COMMAND_TIMEOUT_MS : Nat := 15000

/-- JSON values, as produced by a successful JSON.parse of an inbound
message.  `null` is the JSON literal null, which handleMessage treats
specially. -/
inductive Json where
  | null
  | bool (b : Bool)
  | num (n : Int)
  | str (s : String)
  | arr (elems : List Json)
  | obj (fields : List (String × Json))

/-- The null test applied by handleMessage (response !== null). -/
def Json.isNull : Json → Bool
  | Json.null => true
  | _ => false

/-- Outcome of JSON.parse inside handleMessage: either it throws
(`parseError`, caught by the try/catch) or yields a JSON value. -/
inductive ParseResult where
  | parseError
  | parsed (v : Json)

/-- The readyState of a ws WebSocket. -/
inductive ReadyState where
  | CONNECTING
  | OPEN
  | CLOSING
  | CLOSED
deriving DecidableEq

/-- A PendingRequest entry of the responsePromises map.  The resolve/reject
functions belong to the promise identified by the map key, so only the
setTimeout handle needs to be carried here. -/
structure PendingRequest where
  timer : Nat
deriving DecidableEq

/-- The distinct places in the source that settle a pending request's
promise, each carrying the data it settles with:
`matchedResponse` is promiseCallbacks.resolve(response) in handleMessage;
`nullAfterParse` is the reject in handleMessage when the parsed value is null;
`timedOut` is the reject inside the setTimeout callback of sendCommand;
`bulkRejected` is the reject in rejectPendingPromises;
`sendFailed` is the reject inside the ws.send callback of sendCommand. -/
inductive Settler where
  | matchedResponse (v : Json)
  | nullAfterParse
  | timedOut (id : String)
  | bulkRejected (reason : String)
  | sendFailed

/-- The Error message attached at each rejecting settlement site (none for
a resolution, and none for `sendFailed`, whose Error comes from ws). -/
def settlerMessage : Settler → Option String
  | Settler.matchedResponse _ => none
  | Settler.nullAfterParse => some "Received null response after parsing."
  | Settler.timedOut id =>
      some ("Command (ID: " ++ id ++ ") timed out after " ++
        toString COMMAND_TIMEOUT_MS ++ "ms")
  | Settler.bulkRejected reason => some ("Request failed: " ++ reason)
  | Settler.sendFailed => none

/-- Settlement slot of a JS promise: unsettled, or settled exactly once. -/
inductive PromiseState where
  | unsettled
  | settled (how : Settler)

/-- The fields of the UnityBridgeClient class, together with the model
bookkeeping needed to know which timers are armed and which ws.send
callbacks are still outstanding.  `armedTimers` holds (handle, requestId)
pairs for the command-timeout timers created by setTimeout and not yet
fired or cleared; `outstandingSends` holds (requestId, timerHandle) pairs
captured by a ws.send callback that has not run yet; `nextTimer` is a
fresh-handle counter. -/
structure ClientState where
  ws : Option ReadyState
  isConnectedFlag : Bool
  reconnectTimeoutId : Option Nat
  pingIntervalId : Option Nat
  responsePromises : List (String × PendingRequest)
  armedTimers : List (Nat × String)
  outstandingSends : List (String × Nat)
  nextTimer : Nat
deriving DecidableEq

/-- Whole-system state: the client plus the settlement slot of every
promise sendCommand has registered (in registration order). -/
structure Sys where
  client : ClientState
  promises : List (String × PromiseState)

/-- Map.delete on the responsePromises map. -/
def mapDelete : List (String × PendingRequest) → String → List (String × PendingRequest)
  | [], _ => []
  | e :: es, id => if e.1 = id then mapDelete es id else e :: mapDelete es id

/-- clearTimeout on a command-timeout handle: the timer with that handle is
no longer armed. -/
def clearTimerHandle : List (Nat × String) → Nat → List (Nat × String)
  | [], _ => []
  | t :: ts, h => if t.1 = h then clearTimerHandle ts h else t :: clearTimerHandle ts h

/-- Removal of a fired one-shot timer from the armed set. -/
def removeFired : List (Nat × String) → Nat → String → List (Nat × String)
  | [], _, _ => []
  | t :: ts, h, id =>
      if t = (h, id) then removeFired ts h id else t :: removeFired ts h id

/-- Removal of a completed send callback from the outstanding set. -/
def removeSend : List (String × Nat) → String → Nat → List (String × Nat)
  | [], _, _ => []
  | p :: ps, id, h =>
      if p = (id, h) then removeSend ps id h else p :: removeSend ps id h

/-- Settlement of promise `id` with outcome `how`.  JS promise semantics:
a resolve/reject on an already-settled promise is a no-op, so only an
unsettled slot changes. -/
def settle : List (String × PromiseState) → String → Settler → List (String × PromiseState)
  | [], _, _ => []
  | p :: ps, id, how =>
      if p.1 = id then
        (p.1, match p.2 with
              | PromiseState.unsettled => PromiseState.settled how
              | st => st) :: settle ps id how
      else p :: settle ps id how

/-- Lookup of a promise slot by request id. -/
def lookupPromise : List (String × PromiseState) → String → Option PromiseState
  | [], _ => none
  | p :: ps, id => if p.1 = id then some p.2 else lookupPromise ps id

/-- isConnected(): the flag and the ws readyState check. -/
def isConnected (c : ClientState) : Bool :=
  c.isConnectedFlag && c.ws == some ReadyState.OPEN

/-- clearReconnectTimer(). -/
def clearReconnectTimer (c : ClientState) : ClientState :=
  { c with reconnectTimeoutId := none }

/-- stopPing(). -/
def stopPing (c : ClientState) : ClientState :=
  { c with pingIntervalId := none }

/-- scheduleReconnect(): clears any existing timer, then arms a fresh
reconnect timer only when not connected. -/
def scheduleReconnect (c : ClientState) : ClientState :=
  let c := clearReconnectTimer c
  if !c.isConnectedFlag then
    { c with reconnectTimeoutId := some c.nextTimer, nextTimer := c.nextTimer + 1 }
  else c

/-- startPing(): stopPing, then arm the ping interval. -/
def startPing (c : ClientState) : ClientState :=
  let c := stopPing c
  { c with pingIntervalId := some c.nextTimer, nextTimer := c.nextTimer + 1 }

/-- connect(): clears the reconnect timer; a no-op when a socket is already
OPEN or CONNECTING; otherwise replaces the socket with a fresh CONNECTING
one (the previous socket, if any, has its listeners removed and is
terminated, so it can emit no further events). -/
def connect (c : ClientState) : ClientState :=
  let c := clearReconnectTimer c
  if c.ws = some ReadyState.OPEN ∨ c.ws = some ReadyState.CONNECTING then c
  else { c with ws := some ReadyState.CONNECTING }

/-- rejectPendingPromises(reason): clears every entry's timer, rejects every
entry's promise with Error("Request failed: " ++ reason), and clears the
map. -/
def rejectPendingPromises (s : Sys) (reason : String) : Sys :=
  let timers :=
    s.client.responsePromises.foldl (fun ts e => clearTimerHandle ts e.2.timer)
      s.client.armedTimers
  let promises :=
    s.client.responsePromises.foldl
      (fun ps e => settle ps e.1 (Settler.bulkRejected reason)) s.promises
  { client := { s.client with responsePromises := [], armedTimers := timers },
    promises := promises }

/-- handleDisconnect(reason): early return when already disconnected with a
reconnect pending; otherwise drops the flag, stops ping, bulk-rejects,
tears the socket down and schedules a reconnect. -/
def handleDisconnect (s : Sys) (reason : String) : Sys :=
  if !s.client.isConnectedFlag && s.client.reconnectTimeoutId.isSome then s
  else
    let c := stopPing { s.client with isConnectedFlag := false }
    let s := rejectPendingPromises { s with client := c } reason
    let c := { s.client with ws := none }
    { s with client := scheduleReconnect c }

/-- handleMessage(data): a JSON.parse failure is caught, logged and the
bytes discarded.  On parse success the source does not read a correlation
id from the message; it takes the FIRST key of the responsePromises map as
the correlation id (the TODO at lines 182-184).  If that key exists, its
timer is cleared, its promise is resolved with the parsed value (or
rejected when the value is null), and the entry is deleted; with an empty
map the message is logged as unsolicited and dropped. -/
def handleMessage (s : Sys) (pr : ParseResult) : Sys :=
  match pr with
  | ParseResult.parseError => s
  | ParseResult.parsed v =>
    match s.client.responsePromises with
    | [] => s
    | (cid, entry) :: _ =>
      let ps :=
        if Json.isNull v then settle s.promises cid Settler.nullAfterParse
        else settle s.promises cid (Settler.matchedResponse v)
      { client :=
          { s.client with
            armedTimers := clearTimerHandle s.client.armedTimers entry.timer,
            responsePromises := mapDelete s.client.responsePromises cid },
        promises := ps }

/-- Result of the synchronous part of sendCommand's promise executor. -/
inductive SendCommandResult where
  | rejectedWith (msg : String)
  | registered (id : String)
deriving DecidableEq

/-- Error message of the not-connected rejection in sendCommand. -/
def notConnectedMsg : String := "Not connected to Unity Bridge."

/-- sendCommand(payload): when not connected, rejects synchronously and
returns without touching any state.  Otherwise (with `reqId` the fresh
uuidv4): arms the timeout timer, stores the entry in responsePromises,
creates the promise slot, and calls ws.send whose callback is recorded as
outstanding. -/
def sendCommand (s : Sys) (reqId : String) : Sys × SendCommandResult :=
  if !(isConnected s.client) then (s, SendCommandResult.rejectedWith notConnectedMsg)
  else
    let t := s.client.nextTimer
    let c :=
      { s.client with
        nextTimer := t + 1,
        armedTimers := (t, reqId) :: s.client.armedTimers,
        responsePromises := s.client.responsePromises ++ [(reqId, ⟨t⟩)],
        outstandingSends := (reqId, t) :: s.client.outstandingSends }
    ({ client := c, promises := s.promises ++ [(reqId, PromiseState.unsettled)] },
     SendCommandResult.registered reqId)

/-- The setTimeout callback of sendCommand for request `reqId` (handle `h`):
deletes the entry and rejects with the timeout Error. -/
def fireTimeout (s : Sys) (h : Nat) (reqId : String) : Sys :=
  { client :=
      { s.client with
        armedTimers := removeFired s.client.armedTimers h reqId,
        responsePromises := mapDelete s.client.responsePromises reqId },
    promises := settle s.promises reqId (Settler.timedOut reqId) }

/-- The ws.send callback of sendCommand for request `reqId` with captured
timer handle `h`: on error it clears the timer, deletes the entry and
rejects; on success it only logs. -/
def fireSendCallback (s : Sys) (reqId : String) (h : Nat) (err : Bool) : Sys :=
  let c := { s.client with outstandingSends := removeSend s.client.outstandingSends reqId h }
  if err then
    { client :=
        { c with
          armedTimers := clearTimerHandle c.armedTimers h,
          responsePromises := mapDelete c.responsePromises reqId },
      promises := settle s.promises reqId Settler.sendFailed }
  else { s with client := c }

/-- One tick of the setInterval armed by startPing.  When connected it sends
a ws ping; `pingErr` tells whether that ping's callback reports an error,
which the source only logs (lines 139-144), leaving the state unchanged.
When not connected it schedules a reconnect unless one is already
pending. -/
def firePingTick (s : Sys) (pingErr : Bool) : Sys :=
  if isConnected s.client then
    let _ := pingErr
    s
  else if s.client.reconnectTimeoutId.isNone then
    { s with client := scheduleReconnect s.client }
  else s

/-- The reconnect setTimeout callback: nulls the timer id, then connect(). -/
def fireReconnect (s : Sys) : Sys :=
  { s with client := connect { s.client with reconnectTimeoutId := none } }

/-- The ws open event: readyState becomes OPEN, the handler sets the flag
and starts the ping interval. -/
def fireOpen (s : Sys) : Sys :=
  { s with client := startPing { s.client with ws := some ReadyState.OPEN, isConnectedFlag := true } }

/-- A ws close or error event: readyState becomes CLOSED and the handler
calls handleDisconnect. -/
def fireTransportClose (s : Sys) (reason : String) : Sys :=
  handleDisconnect { s with client := { s.client with ws := some ReadyState.CLOSED } } reason

/-- close(): clears the reconnect timer, stops ping, bulk-rejects with
"Connection closing.", tears the socket down and drops the flag. -/
def close (s : Sys) : Sys :=
  let c := stopPing (clearReconnectTimer s.client)
  let s := rejectPendingPromises { s with client := c } "Connection closing."
  { s with client := { s.client with ws := none, isConnectedFlag := false } }

/-- The state right after the constructor: all fields empty, then
this.connect(). -/
def initSys : Sys :=
  { client := connect
      { ws := none, isConnectedFlag := false, reconnectTimeoutId := none,
        pingIntervalId := none, responsePromises := [], armedTimers := [],
        outstandingSends := [], nextTimer := 0 },
    promises := [] }

/-- The externally triggered events of the system. -/
inductive Event where
  | transportOpen
  | transportMessage (pr : ParseResult)
  | transportClose (reason : String)
  | timeoutFire (h : Nat) (id : String)
  | sendCbFire (id : String) (h : Nat) (err : Bool)
  | pingTick (pingErr : Bool)
  | reconnectFire
  | callSendCommand (reqId : String)
  | callClose

/-- One step of the system: `none` when the event is not enabled in `s`
(no socket to emit it, timer not armed, callback not outstanding, or a
request id that is not fresh). -/
def step (s : Sys) : Event → Option Sys
  | Event.transportOpen =>
      if s.client.ws = some ReadyState.CONNECTING then some (fireOpen s) else none
  | Event.transportMessage pr =>
      if s.client.ws.isSome then some (handleMessage s pr) else none
  | Event.transportClose reason =>
      if s.client.ws.isSome then some (fireTransportClose s reason) else none
  | Event.timeoutFire h id =>
      if (h, id) ∈ s.client.armedTimers then some (fireTimeout s h id) else none
  | Event.sendCbFire id h err =>
      if (id, h) ∈ s.client.outstandingSends then some (fireSendCallback s id h err)
      else none
  | Event.pingTick pingErr =>
      if s.client.pingIntervalId.isSome then some (firePingTick s pingErr) else none
  | Event.reconnectFire =>
      if s.client.reconnectTimeoutId.isSome then some (fireReconnect s) else none
  | Event.callSendCommand reqId =>
      if reqId ∈ s.promises.map (fun p => p.1) then none
      else some (sendCommand s reqId).1
  | Event.callClose => some (close s)

/-- Reachability from the constructor state. -/
inductive Reachable : Sys → Prop where
  | init : Reachable initSys
  | step {s s' : Sys} {e : Event} : Reachable s → step s e = some s' → Reachable s'

/-- Zero or more steps from a given state. -/
inductive Steps : Sys → Sys → Prop where
  | refl {s : Sys} : Steps s s
  | tail {s t u : Sys} {e : Event} : Steps s t → step t e = some u → Steps s u

/-! Basic lemmas about the list operations backing the JS Map, the
setTimeout bookkeeping and promise settlement. -/

lemma mem_mapDelete {m : List (String × PendingRequest)} {id : String}
    {e : String × PendingRequest} :
    e ∈ mapDelete m id ↔ e ∈ m ∧ e.1 ≠ id := by
  induction m with
  | nil => simp [mapDelete]
  | cons a m ih =>
    by_cases h : a.1 = id
    · rw [show mapDelete (a :: m) id = mapDelete m id by simp [mapDelete, h], ih,
        List.mem_cons]
      constructor
      · rintro ⟨hm, hne⟩
        exact ⟨Or.inr hm, hne⟩
      · rintro ⟨rfl | hm, hne⟩
        · exact absurd h hne
        · exact ⟨hm, hne⟩
    · rw [show mapDelete (a :: m) id = a :: mapDelete m id by simp [mapDelete, h],
        List.mem_cons, ih, List.mem_cons]
      constructor
      · rintro (rfl | ⟨hm, hne⟩)
        · exact ⟨Or.inl rfl, h⟩
        · exact ⟨Or.inr hm, hne⟩
      · rintro ⟨rfl | hm, hne⟩
        · exact Or.inl rfl
        · exact Or.inr ⟨hm, hne⟩

lemma mapDelete_sublist (m : List (String × PendingRequest)) (id : String) :
    (mapDelete m id).Sublist m := by
  induction m with
  | nil => simp [mapDelete]
  | cons a m ih =>
    by_cases h : a.1 = id
    · rw [show mapDelete (a :: m) id = mapDelete m id by simp [mapDelete, h]]
      exact ih.cons a
    · rw [show mapDelete (a :: m) id = a :: mapDelete m id by simp [mapDelete, h]]
      exact ih.cons₂ a

lemma mapDelete_of_notMem {m : List (String × PendingRequest)} {id : String}
    (h : id ∉ m.map (fun e => e.1)) : mapDelete m id = m := by
  induction m with
  | nil => rfl
  | cons a m ih =>
    simp only [List.map_cons, List.mem_cons, not_or] at h
    have hne : ¬a.1 = id := fun hc => h.1 hc.symm
    rw [show mapDelete (a :: m) id = a :: mapDelete m id by simp [mapDelete, hne],
      ih h.2]

lemma mem_clearTimerHandle {ts : List (Nat × String)} {h : Nat} {p : Nat × String} :
    p ∈ clearTimerHandle ts h ↔ p ∈ ts ∧ p.1 ≠ h := by
  induction ts with
  | nil => simp [clearTimerHandle]
  | cons a ts ih =>
    by_cases ha : a.1 = h
    · rw [show clearTimerHandle (a :: ts) h = clearTimerHandle ts h by
          simp [clearTimerHandle, ha], ih, List.mem_cons]
      constructor
      · rintro ⟨hm, hne⟩
        exact ⟨Or.inr hm, hne⟩
      · rintro ⟨rfl | hm, hne⟩
        · exact absurd ha hne
        · exact ⟨hm, hne⟩
    · rw [show clearTimerHandle (a :: ts) h = a :: clearTimerHandle ts h by
          simp [clearTimerHandle, ha], List.mem_cons, ih, List.mem_cons]
      constructor
      · rintro (rfl | ⟨hm, hne⟩)
        · exact ⟨Or.inl rfl, ha⟩
        · exact ⟨Or.inr hm, hne⟩
      · rintro ⟨rfl | hm, hne⟩
        · exact Or.inl rfl
        · exact Or.inr ⟨hm, hne⟩

lemma clearTimerHandle_sublist (ts : List (Nat × String)) (h : Nat) :
    (clearTimerHandle ts h).Sublist ts := by
  induction ts with
  | nil => simp [clearTimerHandle]
  | cons a ts ih =>
    by_cases ha : a.1 = h
    · rw [show clearTimerHandle (a :: ts) h = clearTimerHandle ts h by
          simp [clearTimerHandle, ha]]
      exact ih.cons a
    · rw [show clearTimerHandle (a :: ts) h = a :: clearTimerHandle ts h by
          simp [clearTimerHandle, ha]]
      exact ih.cons₂ a

lemma mem_removeFired {ts : List (Nat × String)} {h : Nat} {id : String}
    {p : Nat × String} :
    p ∈ removeFired ts h id ↔ p ∈ ts ∧ p ≠ (h, id) := by
  induction ts with
  | nil => simp [removeFired]
  | cons a ts ih =>
    by_cases ha : a = (h, id)
    · rw [show removeFired (a :: ts) h id = removeFired ts h id by
          simp [removeFired, ha], ih, List.mem_cons]
      constructor
      · rintro ⟨hm, hne⟩
        exact ⟨Or.inr hm, hne⟩
      · rintro ⟨rfl | hm, hne⟩
        · exact absurd ha hne
        · exact ⟨hm, hne⟩
    · rw [show removeFired (a :: ts) h id = a :: removeFired ts h id by
          simp [removeFired, ha], List.mem_cons, ih, List.mem_cons]
      constructor
      · rintro (rfl | ⟨hm, hne⟩)
        · exact ⟨Or.inl rfl, ha⟩
        · exact ⟨Or.inr hm, hne⟩
      · rintro ⟨rfl | hm, hne⟩
        · exact Or.inl rfl
        · exact Or.inr ⟨hm, hne⟩

lemma removeFired_sublist (ts : List (Nat × String)) (h : Nat) (id : String) :
    (removeFired ts h id).Sublist ts := by
  induction ts with
  | nil => simp [removeFired]
  | cons a ts ih =>
    by_cases ha : a = (h, id)
    · rw [show removeFired (a :: ts) h id = removeFired ts h id by
          simp [removeFired, ha]]
      exact ih.cons a
    · rw [show removeFired (a :: ts) h id = a :: removeFired ts h id by
          simp [removeFired, ha]]
      exact ih.cons₂ a

lemma removeSend_sublist (ps : List (String × Nat)) (id : String) (h : Nat) :
    (removeSend ps id h).Sublist ps := by
  induction ps with
  | nil => simp [removeSend]
  | cons a ps ih =>
    by_cases ha : a = (id, h)
    · rw [show removeSend (a :: ps) id h = removeSend ps id h by
          simp [removeSend, ha]]
      exact ih.cons a
    · rw [show removeSend (a :: ps) id h = a :: removeSend ps id h by
          simp [removeSend, ha]]
      exact ih.cons₂ a

lemma settle_keys (ps : List (String × PromiseState)) (id : String) (how : Settler) :
    (settle ps id how).map (fun p => p.1) = ps.map (fun p => p.1) := by
  induction ps with
  | nil => rfl
  | cons a ps ih =>
    by_cases h : a.1 = id
    · simp only [settle, if_pos h, List.map_cons, ih]
    · simp only [settle, if_neg h, List.map_cons, ih]

lemma lookupPromise_settle_ne {ps : List (String × PromiseState)} {id id' : String}
    (hne : id' ≠ id) (how : Settler) :
    lookupPromise (settle ps id how) id' = lookupPromise ps id' := by
  induction ps with
  | nil => rfl
  | cons a ps ih =>
    by_cases h : a.1 = id
    · have h' : ¬a.1 = id' := fun hc => hne (hc ▸ h)
      simp only [settle, if_pos h, lookupPromise, if_neg h']
      exact ih
    · by_cases h' : a.1 = id'
      · simp only [settle, if_neg h, lookupPromise, if_pos h']
      · simp only [settle, if_neg h, lookupPromise, if_neg h']
        exact ih

lemma lookupPromise_settle_unsettled {ps : List (String × PromiseState)} {id : String}
    (hu : lookupPromise ps id = some PromiseState.unsettled) (how : Settler) :
    lookupPromise (settle ps id how) id = some (PromiseState.settled how) := by
  induction ps with
  | nil => simp [lookupPromise] at hu
  | cons a ps ih =>
    by_cases h : a.1 = id
    · simp only [lookupPromise, if_pos h, Option.some.injEq] at hu
      simp only [settle, if_pos h, lookupPromise, if_pos h, hu]
    · simp only [lookupPromise, if_neg h] at hu
      simp only [settle, if_neg h, lookupPromise, if_neg h]
      exact ih hu

lemma lookupPromise_settle_settled {ps : List (String × PromiseState)} {id : String}
    {how0 : Settler}
    (hs : lookupPromise ps id = some (PromiseState.settled how0)) (how : Settler) :
    lookupPromise (settle ps id how) id = some (PromiseState.settled how0) := by
  induction ps with
  | nil => simp [lookupPromise] at hs
  | cons a ps ih =>
    by_cases h : a.1 = id
    · simp only [lookupPromise, if_pos h, Option.some.injEq] at hs
      simp only [settle, if_pos h, lookupPromise, if_pos h, hs]
    · simp only [lookupPromise, if_neg h] at hs
      simp only [settle, if_neg h, lookupPromise, if_neg h]
      exact ih hs

lemma lookupPromise_none_iff {ps : List (String × PromiseState)} {id : String} :
    lookupPromise ps id = none ↔ id ∉ ps.map (fun p => p.1) := by
  induction ps with
  | nil => simp [lookupPromise]
  | cons a ps ih =>
    by_cases h : a.1 = id
    · simp [lookupPromise, h]
    · simp only [lookupPromise, if_neg h, ih, List.map_cons, List.mem_cons, not_or]
      constructor
      · intro hn
        exact ⟨fun hc => h hc.symm, hn⟩
      · exact fun hn => hn.2

lemma lookupPromise_isSome_of_mem {ps : List (String × PromiseState)} {id : String}
    (h : id ∈ ps.map (fun p => p.1)) : ∃ v, lookupPromise ps id = some v := by
  rcases he : lookupPromise ps id with _ | v
  · exact absurd (lookupPromise_none_iff.mp he) (by simpa using h)
  · exact ⟨v, rfl⟩

lemma lookupPromise_append_left {ps qs : List (String × PromiseState)} {id : String}
    {v : PromiseState} (h : lookupPromise ps id = some v) :
    lookupPromise (ps ++ qs) id = some v := by
  induction ps with
  | nil => simp [lookupPromise] at h
  | cons a ps ih =>
    by_cases ha : a.1 = id
    · simp only [lookupPromise, if_pos ha] at h
      simp only [List.cons_append, lookupPromise, if_pos ha]
      exact h
    · simp only [lookupPromise, if_neg ha] at h
      simp only [List.cons_append, lookupPromise, if_neg ha]
      exact ih h

lemma lookupPromise_append_right {ps qs : List (String × PromiseState)} {id : String}
    (h : lookupPromise ps id = none) :
    lookupPromise (ps ++ qs) id = lookupPromise qs id := by
  induction ps with
  | nil => rfl
  | cons a ps ih =>
    by_cases ha : a.1 = id
    · simp [lookupPromise, ha] at h
    · simp only [lookupPromise, if_neg ha] at h
      simp only [List.cons_append, lookupPromise, if_neg ha]
      exact ih h

lemma mem_foldClear {p : Nat × String} :
    ∀ (es : List (String × PendingRequest)) (ts0 : List (Nat × String)),
    (p ∈ es.foldl (fun ts e => clearTimerHandle ts e.2.timer) ts0 ↔
      p ∈ ts0 ∧ p.1 ∉ es.map (fun e => e.2.timer))
  | [], ts0 => by simp
  | a :: es, ts0 => by
    simp only [List.foldl_cons, mem_foldClear es, mem_clearTimerHandle,
      List.map_cons, List.mem_cons, not_or]
    tauto

lemma foldSettle_keys (how : Settler) :
    ∀ (es : List (String × PendingRequest)) (ps : List (String × PromiseState)),
    ((es.foldl (fun ps e => settle ps e.1 how) ps).map (fun p => p.1) =
      ps.map (fun p => p.1))
  | [], _ => rfl
  | a :: es, ps => by
    rw [List.foldl_cons, foldSettle_keys how es, settle_keys]

lemma lookup_foldSettle_notMem {id : String} {how : Settler} :
    ∀ (es : List (String × PendingRequest)) (ps : List (String × PromiseState)),
    id ∉ es.map (fun e => e.1) →
    lookupPromise (es.foldl (fun ps e => settle ps e.1 how) ps) id = lookupPromise ps id
  | [], _, _ => rfl
  | a :: es, ps, h => by
    simp only [List.map_cons, List.mem_cons, not_or] at h
    rw [List.foldl_cons, lookup_foldSettle_notMem es _ h.2, lookupPromise_settle_ne h.1]

lemma lookup_foldSettle_settled {id : String} {how how0 : Settler} :
    ∀ (es : List (String × PendingRequest)) (ps : List (String × PromiseState)),
    lookupPromise ps id = some (PromiseState.settled how0) →
    lookupPromise (es.foldl (fun ps e => settle ps e.1 how) ps) id =
      some (PromiseState.settled how0)
  | [], _, h => h
  | a :: es, ps, h => by
    rw [List.foldl_cons]
    refine lookup_foldSettle_settled es _ ?_
    by_cases ha : id = a.1
    · subst ha
      exact lookupPromise_settle_settled h how
    · rw [lookupPromise_settle_ne ha how]
      exact h

lemma lookup_foldSettle_mem {id : String} {how : Settler} :
    ∀ (es : List (String × PendingRequest)) (ps : List (String × PromiseState)),
    (es.map (fun e => e.1)).Nodup → id ∈ es.map (fun e => e.1) →
    lookupPromise ps id = some PromiseState.unsettled →
    lookupPromise (es.foldl (fun ps e => settle ps e.1 how) ps) id =
      some (PromiseState.settled how)
  | [], _, _, hmem, _ => by simp at hmem
  | a :: es, ps, hnd, hmem, hu => by
    rw [List.foldl_cons]
    simp only [List.map_cons, List.nodup_cons] at hnd
    rcases (by simpa using hmem : id = a.1 ∨ id ∈ es.map (fun e => e.1)) with ha | ha
    · subst ha
      rw [lookup_foldSettle_notMem es _ hnd.1]
      exact lookupPromise_settle_unsettled hu how
    · have hne : id ≠ a.1 := fun hc => hnd.1 (hc ▸ ha)
      exact lookup_foldSettle_mem es _ hnd.2 ha
        (by rw [lookupPromise_settle_ne hne]; exact hu)

lemma entry_unique {m : List (String × PendingRequest)}
    (hnd : (m.map (fun e => e.1)).Nodup) {e1 e2 : String × PendingRequest}
    (h1 : e1 ∈ m) (h2 : e2 ∈ m) (hk : e1.1 = e2.1) : e1 = e2 := by
  induction m with
  | nil => cases h1
  | cons a m ih =>
    simp only [List.map_cons, List.nodup_cons] at hnd
    rcases List.mem_cons.mp h1 with h1a | h1m
    · rcases List.mem_cons.mp h2 with h2a | h2m
      · rw [h1a, h2a]
      · have hm : e2.1 ∈ m.map (fun e => e.1) := List.mem_map_of_mem _ h2m
        rw [← hk, h1a] at hm
        exact absurd hm hnd.1
    · rcases List.mem_cons.mp h2 with h2a | h2m
      · have hm : e1.1 ∈ m.map (fun e => e.1) := List.mem_map_of_mem _ h1m
        rw [hk, h2a] at hm
        exact absurd hm hnd.1
      · exact ih hnd.2 h1m h2m

/-! The inductive invariant of the system.  It ties the registry, the armed
timers, the outstanding send callbacks and the promise slots together:
every pending entry is registered and unsettled and owns exactly one armed
timer; every registered id that is no longer pending is settled; timer
handles are globally fresh; a send that is outstanding agrees with the
registry about its request's timer handle; and a non-empty registry can
only exist while the flag is up and the socket is OPEN. -/
structure CoreInv (s : Sys) : Prop where
  keysNodup : (s.client.responsePromises.map (fun e => e.1)).Nodup
  handlesNodup : (s.client.responsePromises.map (fun e => e.2.timer)).Nodup
  pendingRegistered : ∀ e ∈ s.client.responsePromises, e.1 ∈ s.promises.map (fun p => p.1)
  pendingUnsettled : ∀ e ∈ s.client.responsePromises,
      lookupPromise s.promises e.1 = some PromiseState.unsettled
  nonPendingSettled : ∀ id ∈ s.promises.map (fun p => p.1),
      id ∉ s.client.responsePromises.map (fun e => e.1) →
      ∃ how, lookupPromise s.promises id = some (PromiseState.settled how)
  timersMatch : ∀ p : Nat × String, p ∈ s.client.armedTimers ↔
      ∃ e ∈ s.client.responsePromises, e.1 = p.2 ∧ e.2.timer = p.1
  timersNodup : s.client.armedTimers.Nodup
  entryBound : ∀ e ∈ s.client.responsePromises, e.2.timer < s.client.nextTimer
  sendsRegistered : ∀ p ∈ s.client.outstandingSends, p.1 ∈ s.promises.map (fun q => q.1)
  sendsConsistent : ∀ p ∈ s.client.outstandingSends,
      ∀ e ∈ s.client.responsePromises, e.1 = p.1 → e.2.timer = p.2
  sendsTimerOwner : ∀ p ∈ s.client.outstandingSends,
      ∀ e ∈ s.client.responsePromises, e.2.timer = p.2 → e.1 = p.1
  sendsBound : ∀ p ∈ s.client.outstandingSends, p.2 < s.client.nextTimer

/-- The full inductive invariant: the core plus the connection-flag facts
(a non-empty registry implies the flag is up, and the flag up implies the
socket is OPEN). -/
structure Inv (s : Sys) extends CoreInv s : Prop where
  flagPending : s.client.responsePromises ≠ [] → s.client.isConnectedFlag = true
  flagOpen : s.client.isConnectedFlag = true → s.client.ws = some ReadyState.OPEN

/-- Transfer of the core invariant along a state change that keeps the
registry, timers, sends and promises, and does not decrease the handle
counter. -/
lemma coreInv_congr {s t : Sys} (hI : CoreInv s)
    (h1 : t.client.responsePromises = s.client.responsePromises)
    (h2 : t.client.armedTimers = s.client.armedTimers)
    (h3 : t.client.outstandingSends = s.client.outstandingSends)
    (h4 : s.client.nextTimer ≤ t.client.nextTimer)
    (h5 : t.promises = s.promises) : CoreInv t := by
  refine ⟨?_, ?_, ?_, ?_, ?_, ?_, ?_, ?_, ?_, ?_, ?_, ?_⟩ <;>
    simp only [h1, h2, h3, h5]
  · exact hI.keysNodup
  · exact hI.handlesNodup
  · exact hI.pendingRegistered
  · exact hI.pendingUnsettled
  · exact hI.nonPendingSettled
  · exact hI.timersMatch
  · exact hI.timersNodup
  · exact fun e he => lt_of_lt_of_le (hI.entryBound e he) h4
  · exact hI.sendsRegistered
  · exact hI.sendsConsistent
  · exact hI.sendsTimerOwner
  · exact fun p hp => lt_of_lt_of_le (hI.sendsBound p hp) h4

lemma inv_initSys : Inv initSys := by
  refine ⟨⟨?_, ?_, ?_, ?_, ?_, ?_, ?_, ?_, ?_, ?_, ?_, ?_⟩, ?_, ?_⟩ <;>
    simp [initSys, connect, clearReconnectTimer]

/-- Settling and removing the head entry of a non-empty registry (the
promise-matching path of handleMessage) preserves the core invariant. -/
lemma coreInv_settleHead {s : Sys} {cid : String} {entry : PendingRequest}
    {rest : List (String × PendingRequest)}
    (hm : s.client.responsePromises = (cid, entry) :: rest)
    (how : Settler) (hI : CoreInv s) :
    CoreInv
      { client :=
          { s.client with
            armedTimers := clearTimerHandle s.client.armedTimers entry.timer,
            responsePromises := mapDelete s.client.responsePromises cid },
        promises := settle s.promises cid how } := by
  have hnd := hI.keysNodup
  rw [hm, List.map_cons, List.nodup_cons] at hnd
  have hdel : mapDelete s.client.responsePromises cid = rest := by
    rw [hm, show mapDelete ((cid, entry) :: rest) cid = mapDelete rest cid by
      simp [mapDelete]]
    exact mapDelete_of_notMem hnd.1
  have hhandles := hI.handlesNodup
  rw [hm, List.map_cons, List.nodup_cons] at hhandles
  have hcidmem : (cid, entry) ∈ s.client.responsePromises := by
    rw [hm]; exact List.mem_cons_self _ _
  have hcu : lookupPromise s.promises cid = some PromiseState.unsettled :=
    hI.pendingUnsettled _ hcidmem
  have hrestmem : ∀ e ∈ rest, e ∈ s.client.responsePromises := by
    intro e he
    rw [hm]
    exact List.mem_cons_of_mem _ he
  have hrestne : ∀ e ∈ rest, e.1 ≠ cid := by
    intro e he hc
    exact hnd.1 (hc ▸ List.mem_map_of_mem (fun e => e.1) he)
  constructor
  case keysNodup => dsimp only; rw [hdel]; exact hnd.2
  case handlesNodup => dsimp only; rw [hdel]; exact hhandles.2
  case pendingRegistered =>
    dsimp only
    rw [hdel, settle_keys]
    intro e he
    exact hI.pendingRegistered e (hrestmem e he)
  case pendingUnsettled =>
    dsimp only
    rw [hdel]
    intro e he
    rw [lookupPromise_settle_ne (hrestne e he) how]
    exact hI.pendingUnsettled e (hrestmem e he)
  case nonPendingSettled =>
    dsimp only
    rw [hdel, settle_keys]
    intro id hid hnot
    by_cases hc : id = cid
    · subst hc
      exact ⟨how, lookupPromise_settle_unsettled hcu how⟩
    · rw [lookupPromise_settle_ne hc how]
      refine hI.nonPendingSettled id hid ?_
      rw [hm, List.map_cons, List.mem_cons]
      rintro (h | h)
      · exact hc h
      · exact hnot h
  case timersMatch =>
    dsimp only
    intro p
    rw [hdel, mem_clearTimerHandle, hI.timersMatch p]
    constructor
    · rintro ⟨⟨e, he, hk, ht⟩, hne⟩
      rw [hm, List.mem_cons] at he
      rcases he with he | he
      · rw [he] at ht
        exact absurd ht.symm hne
      · exact ⟨e, he, hk, ht⟩
    · rintro ⟨e, he, hk, ht⟩
      refine ⟨⟨e, hrestmem e he, hk, ht⟩, ?_⟩
      rw [← ht]
      intro hc
      exact hhandles.1 (hc ▸ List.mem_map_of_mem (fun e => e.2.timer) he)
  case timersNodup =>
    exact (clearTimerHandle_sublist _ _).nodup hI.timersNodup
  case entryBound =>
    dsimp only
    rw [hdel]
    intro e he
    exact hI.entryBound e (hrestmem e he)
  case sendsRegistered =>
    dsimp only
    rw [settle_keys]
    exact hI.sendsRegistered
  case sendsConsistent =>
    dsimp only
    rw [hdel]
    intro p hp e he
    exact hI.sendsConsistent p hp e (hrestmem e he)
  case sendsTimerOwner =>
    dsimp only
    rw [hdel]
    intro p hp e he
    exact hI.sendsTimerOwner p hp e (hrestmem e he)
  case sendsBound => exact hI.sendsBound

lemma keys_mapDelete_of_ne {m : List (String × PendingRequest)} {id id' : String}
    (hne : id' ≠ id) (h : id' ∈ m.map (fun e => e.1)) :
    id' ∈ (mapDelete m id).map (fun e => e.1) := by
  rcases List.mem_map.mp h with ⟨e, he, hk⟩
  exact List.mem_map.mpr ⟨e, mem_mapDelete.mpr ⟨he, fun hc => hne (hk ▸ hc)⟩, hk⟩

/-- Firing the timeout timer of request `reqId` preserves the core
invariant. -/
lemma coreInv_fireTimeout {s : Sys} {h : Nat} {reqId : String}
    (hmem : (h, reqId) ∈ s.client.armedTimers) (hI : CoreInv s) :
    CoreInv (fireTimeout s h reqId) := by
  obtain ⟨e0, he0, hk0, ht0⟩ := (hI.timersMatch (h, reqId)).mp hmem
  dsimp only at hk0 ht0
  constructor
  case keysNodup =>
    exact (((mapDelete_sublist _ _).map _).nodup hI.keysNodup)
  case handlesNodup =>
    exact (((mapDelete_sublist _ _).map _).nodup hI.handlesNodup)
  case pendingRegistered =>
    dsimp only [fireTimeout]
    rw [settle_keys]
    intro e he
    exact hI.pendingRegistered e (mem_mapDelete.mp he).1
  case pendingUnsettled =>
    dsimp only [fireTimeout]
    intro e he
    rcases mem_mapDelete.mp he with ⟨he, hne⟩
    rw [lookupPromise_settle_ne hne]
    exact hI.pendingUnsettled e he
  case nonPendingSettled =>
    dsimp only [fireTimeout]
    rw [settle_keys]
    intro id hid hnot
    by_cases hc : id = reqId
    · subst hc
      have hu : lookupPromise s.promises id = some PromiseState.unsettled := by
        rw [← hk0]
        exact hI.pendingUnsettled e0 he0
      exact ⟨_, lookupPromise_settle_unsettled hu _⟩
    · rw [lookupPromise_settle_ne hc]
      refine hI.nonPendingSettled id hid ?_
      exact fun hin => hnot (keys_mapDelete_of_ne hc hin)
  case timersMatch =>
    dsimp only [fireTimeout]
    intro p
    rw [mem_removeFired, hI.timersMatch p]
    constructor
    · rintro ⟨⟨e, he, hk, ht⟩, hne⟩
      refine ⟨e, mem_mapDelete.mpr ⟨he, ?_⟩, hk, ht⟩
      intro hc
      have : e = e0 := entry_unique hI.keysNodup he he0 (hc.trans hk0.symm)
      apply hne
      have hp2 : p.2 = reqId := by rw [← hk, this, hk0]
      have hp1 : p.1 = h := by rw [← ht, this, ht0]
      exact Prod.ext hp1 hp2
    · rintro ⟨e, he, hk, ht⟩
      rcases mem_mapDelete.mp he with ⟨he, hne⟩
      refine ⟨⟨e, he, hk, ht⟩, fun hc => hne ?_⟩
      rw [hk]
      rw [hc]
  case timersNodup =>
    exact (removeFired_sublist _ _ _).nodup hI.timersNodup
  case entryBound =>
    dsimp only [fireTimeout]
    intro e he
    exact hI.entryBound e (mem_mapDelete.mp he).1
  case sendsRegistered =>
    dsimp only [fireTimeout]
    rw [settle_keys]
    exact hI.sendsRegistered
  case sendsConsistent =>
    dsimp only [fireTimeout]
    intro p hp e he
    exact hI.sendsConsistent p hp e (mem_mapDelete.mp he).1
  case sendsTimerOwner =>
    dsimp only [fireTimeout]
    intro p hp e he
    exact hI.sendsTimerOwner p hp e (mem_mapDelete.mp he).1
  case sendsBound => exact hI.sendsBound

/-- Running the ws.send callback of request `reqId` (in either mode)
preserves the core invariant. -/
lemma coreInv_fireSendCallback {s : Sys} {reqId : String} {h : Nat} {err : Bool}
    (hmem : (reqId, h) ∈ s.client.outstandingSends) (hI : CoreInv s) :
    CoreInv (fireSendCallback s reqId h err) := by
  have hsendmem : ∀ p ∈ removeSend s.client.outstandingSends reqId h,
      p ∈ s.client.outstandingSends := fun p hp => (removeSend_sublist _ _ _).mem hp
  cases err with
  | false =>
    have hEq : fireSendCallback s reqId h false =
        { client :=
            { s.client with
              outstandingSends := removeSend s.client.outstandingSends reqId h },
          promises := s.promises } := rfl
    rw [hEq]
    constructor
    case keysNodup => exact hI.keysNodup
    case handlesNodup => exact hI.handlesNodup
    case pendingRegistered => exact hI.pendingRegistered
    case pendingUnsettled => exact hI.pendingUnsettled
    case nonPendingSettled => exact hI.nonPendingSettled
    case timersMatch => exact hI.timersMatch
    case timersNodup => exact hI.timersNodup
    case entryBound => exact hI.entryBound
    case sendsRegistered =>
      exact fun p hp => hI.sendsRegistered p (hsendmem p hp)
    case sendsConsistent =>
      exact fun p hp => hI.sendsConsistent p (hsendmem p hp)
    case sendsTimerOwner =>
      exact fun p hp => hI.sendsTimerOwner p (hsendmem p hp)
    case sendsBound =>
      exact fun p hp => hI.sendsBound p (hsendmem p hp)
  | true =>
    have hEq : fireSendCallback s reqId h true =
        { client :=
            { s.client with
              outstandingSends := removeSend s.client.outstandingSends reqId h,
              armedTimers := clearTimerHandle s.client.armedTimers h,
              responsePromises := mapDelete s.client.responsePromises reqId },
          promises := settle s.promises reqId Settler.sendFailed } := rfl
    rw [hEq]
    constructor
    case keysNodup =>
      exact (((mapDelete_sublist _ _).map _).nodup hI.keysNodup)
    case handlesNodup =>
      exact (((mapDelete_sublist _ _).map _).nodup hI.handlesNodup)
    case pendingRegistered =>
      dsimp only
      rw [settle_keys]
      intro e he
      exact hI.pendingRegistered e (mem_mapDelete.mp he).1
    case pendingUnsettled =>
      dsimp only
      intro e he
      rcases mem_mapDelete.mp he with ⟨he, hne⟩
      rw [lookupPromise_settle_ne hne]
      exact hI.pendingUnsettled e he
    case nonPendingSettled =>
      dsimp only
      rw [settle_keys]
      intro id hid hnot
      by_cases hc : id = reqId
      · subst hc
        by_cases hp : id ∈ s.client.responsePromises.map (fun e => e.1)
        · rcases List.mem_map.mp hp with ⟨e, he, hk⟩
          have hu : lookupPromise s.promises id = some PromiseState.unsettled := by
            rw [← hk]
            exact hI.pendingUnsettled e he
          exact ⟨_, lookupPromise_settle_unsettled hu _⟩
        · obtain ⟨how0, hs0⟩ := hI.nonPendingSettled id hid hp
          exact ⟨how0, lookupPromise_settle_settled hs0 _⟩
      · rw [lookupPromise_settle_ne hc]
        refine hI.nonPendingSettled id hid ?_
        exact fun hin => hnot (keys_mapDelete_of_ne hc hin)
    case timersMatch =>
      dsimp only
      intro p
      rw [mem_clearTimerHandle, hI.timersMatch p]
      constructor
      · rintro ⟨⟨e, he, hk, ht⟩, hne⟩
        refine ⟨e, mem_mapDelete.mpr ⟨he, fun hc => hne ?_⟩, hk, ht⟩
        rw [← ht]
        exact hI.sendsConsistent (reqId, h) hmem e he hc
      · rintro ⟨e, he, hk, ht⟩
        rcases mem_mapDelete.mp he with ⟨he, hne⟩
        refine ⟨⟨e, he, hk, ht⟩, fun hc => hne ?_⟩
        refine hI.sendsTimerOwner (reqId, h) hmem e he ?_
        rw [ht, hc]
    case timersNodup =>
      exact (clearTimerHandle_sublist _ _).nodup hI.timersNodup
    case entryBound =>
      dsimp only
      intro e he
      exact hI.entryBound e (mem_mapDelete.mp he).1
    case sendsRegistered =>
      dsimp only
      rw [settle_keys]
      exact fun p hp => hI.sendsRegistered p (hsendmem p hp)
    case sendsConsistent =>
      dsimp only
      intro p hp e he
      exact hI.sendsConsistent p (hsendmem p hp) e (mem_mapDelete.mp he).1
    case sendsTimerOwner =>
      dsimp only
      intro p hp e he
      exact hI.sendsTimerOwner p (hsendmem p hp) e (mem_mapDelete.mp he).1
    case sendsBound =>
      exact fun p hp => hI.sendsBound p (hsendmem p hp)

lemma rejectPending_registry (s : Sys) (reason : String) :
    (rejectPendingPromises s reason).client.responsePromises = [] := rfl

lemma rejectPending_promises_def (s : Sys) (reason : String) :
    (rejectPendingPromises s reason).promises =
      s.client.responsePromises.foldl
        (fun ps e => settle ps e.1 (Settler.bulkRejected reason)) s.promises := rfl

lemma rejectPending_armed_nil {s : Sys} {reason : String}
    (htm : ∀ p ∈ s.client.armedTimers,
      ∃ e ∈ s.client.responsePromises, e.1 = p.2 ∧ e.2.timer = p.1) :
    (rejectPendingPromises s reason).client.armedTimers = [] := by
  refine List.eq_nil_iff_forall_not_mem.mpr fun p hp => ?_
  have hp2 : p ∈ s.client.responsePromises.foldl
      (fun ts e => clearTimerHandle ts e.2.timer) s.client.armedTimers := hp
  rw [mem_foldClear] at hp2
  obtain ⟨e, he, _, ht⟩ := htm p hp2.1
  exact hp2.2 (by rw [← ht]; exact List.mem_map_of_mem _ he)

lemma rejectPending_lookup_pending {s : Sys} {reason : String} {id : String}
    (hnd : (s.client.responsePromises.map (fun e => e.1)).Nodup)
    (hu : ∀ e ∈ s.client.responsePromises,
      lookupPromise s.promises e.1 = some PromiseState.unsettled)
    (hid : id ∈ s.client.responsePromises.map (fun e => e.1)) :
    lookupPromise (rejectPendingPromises s reason).promises id =
      some (PromiseState.settled (Settler.bulkRejected reason)) := by
  rcases List.mem_map.mp hid with ⟨e, he, hk⟩
  rw [rejectPending_promises_def]
  refine lookup_foldSettle_mem _ _ hnd hid ?_
  rw [← hk]
  exact hu e he

/-- rejectPendingPromises preserves the core invariant. -/
lemma coreInv_rejectPending {s : Sys} (reason : String) (hI : CoreInv s) :
    CoreInv (rejectPendingPromises s reason) := by
  have hkeys : (rejectPendingPromises s reason).promises.map (fun p => p.1) =
      s.promises.map (fun p => p.1) := by
    rw [rejectPending_promises_def, foldSettle_keys]
  have harmed : (rejectPendingPromises s reason).client.armedTimers = [] :=
    rejectPending_armed_nil (fun p hp => (hI.timersMatch p).mp hp)
  constructor
  case keysNodup => exact List.nodup_nil
  case handlesNodup => exact List.nodup_nil
  case pendingRegistered => exact fun e he => absurd he (List.not_mem_nil e)
  case pendingUnsettled => exact fun e he => absurd he (List.not_mem_nil e)
  case nonPendingSettled =>
    intro id hid _
    rw [hkeys] at hid
    by_cases hpend : id ∈ s.client.responsePromises.map (fun e => e.1)
    · exact ⟨_, rejectPending_lookup_pending hI.keysNodup hI.pendingUnsettled hpend⟩
    · obtain ⟨how0, h0⟩ := hI.nonPendingSettled id hid hpend
      refine ⟨how0, ?_⟩
      rw [rejectPending_promises_def]
      exact lookup_foldSettle_settled _ _ h0
  case timersMatch =>
    rw [harmed, rejectPending_registry]
    simp
  case timersNodup =>
    rw [harmed]
    exact List.nodup_nil
  case entryBound => exact fun e he => absurd he (List.not_mem_nil e)
  case sendsRegistered =>
    intro p hp
    rw [hkeys]
    exact hI.sendsRegistered p hp
  case sendsConsistent => exact fun p hp e he => absurd he (List.not_mem_nil e)
  case sendsTimerOwner => exact fun p hp e he => absurd he (List.not_mem_nil e)
  case sendsBound => exact hI.sendsBound

/-- Registering a fresh request (the connected branch of sendCommand)
preserves the core invariant. -/
lemma coreInv_register {s : Sys} {reqId : String}
    (hfresh : reqId ∉ s.promises.map (fun p => p.1)) (hI : CoreInv s) :
    CoreInv
      { client :=
          { s.client with
            nextTimer := s.client.nextTimer + 1,
            armedTimers := (s.client.nextTimer, reqId) :: s.client.armedTimers,
            responsePromises :=
              s.client.responsePromises ++ [(reqId, ⟨s.client.nextTimer⟩)],
            outstandingSends := (reqId, s.client.nextTimer) :: s.client.outstandingSends },
        promises := s.promises ++ [(reqId, PromiseState.unsettled)] } := by
  have hpfresh : reqId ∉ s.client.responsePromises.map (fun e => e.1) := by
    intro hin
    rcases List.mem_map.mp hin with ⟨e, he, hk⟩
    exact hfresh (hk ▸ hI.pendingRegistered e he)
  have hlookNew : lookupPromise (s.promises ++ [(reqId, PromiseState.unsettled)]) reqId =
      some PromiseState.unsettled := by
    rw [lookupPromise_append_right (lookupPromise_none_iff.mpr hfresh)]
    simp [lookupPromise]
  have hkeysNew : (s.promises ++ [(reqId, PromiseState.unsettled)]).map (fun p => p.1) =
      s.promises.map (fun p => p.1) ++ [reqId] := by
    rw [List.map_append]
    rfl
  constructor
  case keysNodup =>
    dsimp only
    rw [List.map_append]
    refine List.Nodup.append hI.keysNodup (List.nodup_singleton _) ?_
    intro a ha hb
    rw [show (List.map (fun e => e.1) [((reqId : String), (⟨s.client.nextTimer⟩ : PendingRequest))]) = [reqId] from rfl] at hb
    rw [List.mem_singleton] at hb
    subst hb
    exact hpfresh ha
  case handlesNodup =>
    dsimp only
    rw [List.map_append]
    refine List.Nodup.append hI.handlesNodup (List.nodup_singleton _) ?_
    intro a ha hb
    rw [show (List.map (fun e => e.2.timer) [((reqId : String), (⟨s.client.nextTimer⟩ : PendingRequest))]) = [s.client.nextTimer] from rfl] at hb
    rw [List.mem_singleton] at hb
    subst hb
    rcases List.mem_map.mp ha with ⟨e, he, ht⟩
    exact absurd (ht ▸ hI.entryBound e he) (lt_irrefl _)
  case pendingRegistered =>
    dsimp only
    intro e he
    rw [hkeysNew]
    rcases List.mem_append.mp he with he | he
    · exact List.mem_append.mpr (Or.inl (hI.pendingRegistered e he))
    · rw [List.mem_singleton] at he
      subst he
      exact List.mem_append.mpr (Or.inr (List.mem_singleton.mpr rfl))
  case pendingUnsettled =>
    dsimp only
    intro e he
    rcases List.mem_append.mp he with he | he
    · rw [lookupPromise_append_left (hI.pendingUnsettled e he)]
    · rw [List.mem_singleton] at he
      subst he
      exact hlookNew
  case nonPendingSettled =>
    dsimp only
    intro id hid hnot
    rw [hkeysNew, List.mem_append, List.mem_singleton] at hid
    have hne : id ≠ reqId := by
      intro hc
      subst hc
      refine hnot ?_
      rw [List.map_append]
      exact List.mem_append.mpr (Or.inr (by simp))
    rcases hid with hid | hid
    · have hnot2 : id ∉ s.client.responsePromises.map (fun e => e.1) := by
        intro hin
        refine hnot ?_
        rw [List.map_append]
        exact List.mem_append.mpr (Or.inl hin)
      obtain ⟨how0, h0⟩ := hI.nonPendingSettled id hid hnot2
      exact ⟨how0, lookupPromise_append_left h0⟩
    · exact absurd hid hne
  case timersMatch =>
    dsimp only
    intro p
    rw [List.mem_cons]
    constructor
    · rintro (rfl | hp)
      · exact ⟨(reqId, ⟨s.client.nextTimer⟩),
          List.mem_append.mpr (Or.inr (List.mem_singleton.mpr rfl)), rfl, rfl⟩
      · obtain ⟨e, he, hk, ht⟩ := (hI.timersMatch p).mp hp
        exact ⟨e, List.mem_append.mpr (Or.inl he), hk, ht⟩
    · rintro ⟨e, he, hk, ht⟩
      rcases List.mem_append.mp he with he | he
      · exact Or.inr ((hI.timersMatch p).mpr ⟨e, he, hk, ht⟩)
      · rw [List.mem_singleton] at he
        subst he
        left
        refine Prod.ext ?_ ?_
        · rw [← ht]
        · rw [← hk]
  case timersNodup =>
    dsimp only
    rw [List.nodup_cons]
    refine ⟨fun hp => ?_, hI.timersNodup⟩
    obtain ⟨e, he, hk, ht⟩ := (hI.timersMatch (s.client.nextTimer, reqId)).mp hp
    exact absurd (ht ▸ hI.entryBound e he) (lt_irrefl _)
  case entryBound =>
    dsimp only
    intro e he
    rcases List.mem_append.mp he with he | he
    · exact lt_trans (hI.entryBound e he) (Nat.lt_succ_self _)
    · rw [List.mem_singleton] at he
      subst he
      exact Nat.lt_succ_self _
  case sendsRegistered =>
    dsimp only
    intro p hp
    rw [hkeysNew]
    rcases List.mem_cons.mp hp with rfl | hp
    · exact List.mem_append.mpr (Or.inr (List.mem_singleton.mpr rfl))
    · exact List.mem_append.mpr (Or.inl (hI.sendsRegistered p hp))
  case sendsConsistent =>
    dsimp only
    intro p hp e he
    rcases List.mem_cons.mp hp with rfl | hp
    · rcases List.mem_append.mp he with he | he
      · intro hk
        dsimp only at hk
        have hm := List.mem_map_of_mem (fun e => e.1) he
        dsimp only at hm
        rw [hk] at hm
        exact absurd hm hpfresh
      · rw [List.mem_singleton] at he
        subst he
        intro _
        rfl
    · rcases List.mem_append.mp he with he | he
      · exact hI.sendsConsistent p hp e he
      · rw [List.mem_singleton] at he
        subst he
        intro hk
        dsimp only at hk
        have hm := hI.sendsRegistered p hp
        rw [← hk] at hm
        exact absurd hm hfresh
  case sendsTimerOwner =>
    dsimp only
    intro p hp e he
    rcases List.mem_cons.mp hp with rfl | hp
    · rcases List.mem_append.mp he with he | he
      · intro ht
        exact absurd (ht ▸ hI.entryBound e he) (lt_irrefl _)
      · rw [List.mem_singleton] at he
        subst he
        intro _
        rfl
    · rcases List.mem_append.mp he with he | he
      · exact hI.sendsTimerOwner p hp e he
      · rw [List.mem_singleton] at he
        subst he
        intro ht
        exact absurd (ht.symm ▸ hI.sendsBound p hp) (lt_irrefl _)
  case sendsBound =>
    dsimp only
    intro p hp
    rcases List.mem_cons.mp hp with rfl | hp
    · exact Nat.lt_succ_self _
    · exact lt_trans (hI.sendsBound p hp) (Nat.lt_succ_self _)

lemma scheduleReconnect_fields (c : ClientState) :
    (scheduleReconnect c).responsePromises = c.responsePromises ∧
    (scheduleReconnect c).armedTimers = c.armedTimers ∧
    (scheduleReconnect c).outstandingSends = c.outstandingSends ∧
    (scheduleReconnect c).isConnectedFlag = c.isConnectedFlag ∧
    (scheduleReconnect c).ws = c.ws ∧
    c.nextTimer ≤ (scheduleReconnect c).nextTimer := by
  unfold scheduleReconnect clearReconnectTimer
  by_cases hb : c.isConnectedFlag <;> simp [hb]

lemma connect_fields (c : ClientState) :
    (connect c).responsePromises = c.responsePromises ∧
    (connect c).armedTimers = c.armedTimers ∧
    (connect c).outstandingSends = c.outstandingSends ∧
    (connect c).isConnectedFlag = c.isConnectedFlag ∧
    (connect c).nextTimer = c.nextTimer := by
  unfold connect clearReconnectTimer
  by_cases hw : c.ws = some ReadyState.OPEN ∨ c.ws = some ReadyState.CONNECTING <;>
    simp [hw]

lemma connect_ws_open {c : ClientState} (h : c.ws = some ReadyState.OPEN) :
    (connect c).ws = some ReadyState.OPEN := by
  unfold connect clearReconnectTimer
  simp [h]

lemma handleMessage_cons {s : Sys} {cid : String} {entry : PendingRequest}
    {rest : List (String × PendingRequest)}
    (hm : s.client.responsePromises = (cid, entry) :: rest) (v : Json) :
    handleMessage s (ParseResult.parsed v) =
      { client :=
          { s.client with
            armedTimers := clearTimerHandle s.client.armedTimers entry.timer,
            responsePromises := mapDelete s.client.responsePromises cid },
        promises := settle s.promises cid
          (if Json.isNull v then Settler.nullAfterParse
           else Settler.matchedResponse v) } := by
  by_cases hv : Json.isNull v <;> simp [handleMessage, hm, hv]

/-- One step of the system preserves the invariant. -/
theorem inv_step {s s' : Sys} {e : Event} (hI : Inv s) (h : step s e = some s') :
    Inv s' := by
  cases e with
  | transportOpen =>
    simp only [step] at h
    split at h
    · simp only [Option.some.injEq] at h
      subst h
      exact ⟨coreInv_congr hI.toCoreInv rfl rfl rfl (Nat.le_succ _) rfl,
        fun _ => rfl, fun _ => rfl⟩
    · exact absurd h (by simp)
  | transportMessage pr =>
    simp only [step] at h
    split at h
    · simp only [Option.some.injEq] at h
      subst h
      cases pr with
      | parseError => exact hI
      | parsed v =>
        rcases hm : s.client.responsePromises with _ | ⟨⟨cid, entry⟩, rest⟩
        · have hid : handleMessage s (ParseResult.parsed v) = s := by
            simp [handleMessage, hm]
          rw [hid]
          exact hI
        · rw [handleMessage_cons hm v]
          refine ⟨coreInv_settleHead hm _ hI.toCoreInv, ?_, ?_⟩
          · intro _
            exact hI.flagPending (by rw [hm]; exact List.cons_ne_nil _ _)
          · exact hI.flagOpen
    · exact absurd h (by simp)
  | transportClose reason =>
    simp only [step] at h
    split at h
    · simp only [Option.some.injEq] at h
      subst h
      show Inv (handleDisconnect
        { s with client := { s.client with ws := some ReadyState.CLOSED } } reason)
      unfold handleDisconnect
      split
      · rename_i hg
        rw [Bool.and_eq_true, Bool.not_eq_true'] at hg
        refine ⟨coreInv_congr hI.toCoreInv rfl rfl rfl (le_refl _) rfl, ?_, ?_⟩
        · intro hne
          have := hI.flagPending hne
          rw [hg.1] at this
          exact Bool.noConfusion this
        · intro hf
          rw [hg.1] at hf
          exact Bool.noConfusion hf
      · have hA : CoreInv
            { client := stopPing
                { ({ s with client := { s.client with
                    ws := some ReadyState.CLOSED } } : Sys).client with
                  isConnectedFlag := false },
              promises := s.promises } :=
          coreInv_congr hI.toCoreInv rfl rfl rfl (le_refl _) rfl
        have hB := coreInv_rejectPending reason hA
        refine ⟨coreInv_congr hB rfl rfl rfl (Nat.le_succ _) rfl, ?_, ?_⟩
        · intro hne
          exact absurd rfl hne
        · intro hf
          exact Bool.noConfusion hf
    · exact absurd h (by simp)
  | timeoutFire th tid =>
    simp only [step] at h
    split at h
    · rename_i hmem
      simp only [Option.some.injEq] at h
      subst h
      refine ⟨coreInv_fireTimeout hmem hI.toCoreInv, ?_, ?_⟩
      · intro hne
        refine hI.flagPending fun h0 => hne ?_
        show mapDelete s.client.responsePromises tid = []
        rw [h0]
        rfl
      · exact hI.flagOpen
    · exact absurd h (by simp)
  | sendCbFire cid ch cerr =>
    simp only [step] at h
    split at h
    · rename_i hmem
      simp only [Option.some.injEq] at h
      subst h
      refine ⟨coreInv_fireSendCallback hmem hI.toCoreInv, ?_, ?_⟩
      · cases cerr with
        | false => exact hI.flagPending
        | true =>
          intro hne
          refine hI.flagPending fun h0 => hne ?_
          show mapDelete s.client.responsePromises cid = []
          rw [h0]
          rfl
      · cases cerr with
        | false => exact hI.flagOpen
        | true => exact hI.flagOpen
    · exact absurd h (by simp)
  | pingTick pingErr =>
    simp only [step] at h
    split at h
    · simp only [Option.some.injEq] at h
      subst h
      by_cases hc : isConnected s.client
      · have hid : firePingTick s pingErr = s := by simp [firePingTick, hc]
        rw [hid]
        exact hI
      · by_cases hr : s.client.reconnectTimeoutId.isNone
        · have hid : firePingTick s pingErr =
              { s with client := scheduleReconnect s.client } := by
            simp [firePingTick, hc, hr]
          rw [hid]
          obtain ⟨f1, f2, f3, f4, f5, f6⟩ := scheduleReconnect_fields s.client
          refine ⟨coreInv_congr hI.toCoreInv f1 f2 f3 f6 rfl, ?_, ?_⟩
          · intro hne
            rw [show ({ s with client := scheduleReconnect s.client } : Sys).client.isConnectedFlag = (scheduleReconnect s.client).isConnectedFlag from rfl, f4]
            refine hI.flagPending ?_
            rw [show ({ s with client := scheduleReconnect s.client } : Sys).client.responsePromises = (scheduleReconnect s.client).responsePromises from rfl, f1] at hne
            exact hne
          · intro hf
            rw [show ({ s with client := scheduleReconnect s.client } : Sys).client.isConnectedFlag = (scheduleReconnect s.client).isConnectedFlag from rfl, f4] at hf
            rw [show ({ s with client := scheduleReconnect s.client } : Sys).client.ws = (scheduleReconnect s.client).ws from rfl, f5]
            exact hI.flagOpen hf
        · have hid : firePingTick s pingErr = s := by simp [firePingTick, hc, hr]
          rw [hid]
          exact hI
    · exact absurd h (by simp)
  | reconnectFire =>
    simp only [step] at h
    split at h
    · simp only [Option.some.injEq] at h
      subst h
      show Inv { s with client := connect { s.client with reconnectTimeoutId := none } }
      obtain ⟨f1, f2, f3, f4, f5⟩ :=
        connect_fields { s.client with reconnectTimeoutId := none }
      refine ⟨coreInv_congr hI.toCoreInv f1 f2 f3 (le_of_eq f5.symm) rfl, ?_, ?_⟩
      · intro hne
        rw [show ({ s with client := connect { s.client with reconnectTimeoutId := none } } : Sys).client.isConnectedFlag = (connect { s.client with reconnectTimeoutId := none }).isConnectedFlag from rfl, f4]
        refine hI.flagPending ?_
        rw [show ({ s with client := connect { s.client with reconnectTimeoutId := none } } : Sys).client.responsePromises = (connect { s.client with reconnectTimeoutId := none }).responsePromises from rfl, f1] at hne
        exact hne
      · intro hf
        rw [show ({ s with client := connect { s.client with reconnectTimeoutId := none } } : Sys).client.isConnectedFlag = (connect { s.client with reconnectTimeoutId := none }).isConnectedFlag from rfl, f4] at hf
        exact connect_ws_open (hI.flagOpen hf)
    · exact absurd h (by simp)
  | callSendCommand reqId =>
    simp only [step] at h
    split at h
    · exact absurd h (by simp)
    · rename_i hfresh
      simp only [Option.some.injEq] at h
      subst h
      by_cases hc : isConnected s.client
      · have hEq : (sendCommand s reqId).1 =
            { client :=
                { s.client with
                  nextTimer := s.client.nextTimer + 1,
                  armedTimers := (s.client.nextTimer, reqId) :: s.client.armedTimers,
                  responsePromises :=
                    s.client.responsePromises ++ [(reqId, ⟨s.client.nextTimer⟩)],
                  outstandingSends :=
                    (reqId, s.client.nextTimer) :: s.client.outstandingSends },
              promises := s.promises ++ [(reqId, PromiseState.unsettled)] } := by
          simp [sendCommand, hc]
        rw [hEq]
        have hflag : s.client.isConnectedFlag = true := by
          unfold isConnected at hc
          rw [Bool.and_eq_true] at hc
          exact hc.1
        refine ⟨coreInv_register hfresh hI.toCoreInv, fun _ => hflag, fun _ => ?_⟩
        exact hI.flagOpen hflag
      · have hEq : (sendCommand s reqId).1 = s := by simp [sendCommand, hc]
        rw [hEq]
        exact hI
  | callClose =>
    simp only [step, Option.some.injEq] at h
    subst h
    show Inv (close s)
    have hA : CoreInv
        { client := stopPing (clearReconnectTimer s.client), promises := s.promises } :=
      coreInv_congr hI.toCoreInv rfl rfl rfl (le_refl _) rfl
    have hB := coreInv_rejectPending "Connection closing." hA
    refine ⟨coreInv_congr hB rfl rfl rfl (le_refl _) rfl, ?_, ?_⟩
    · intro hne
      exact absurd rfl hne
    · intro hf
      exact Bool.noConfusion hf

/-- Every reachable state satisfies the invariant. -/
theorem reachable_inv {s : Sys} (h : Reachable s) : Inv s := by
  induction h with
  | init => exact inv_initSys
  | step _ hstep ih => exact inv_step ih hstep

lemma lookupPromise_settle_preserves {ps : List (String × PromiseState)}
    {cid id : String} {how0 : Settler} (how : Settler)
    (hs : lookupPromise ps id = some (PromiseState.settled how0)) :
    lookupPromise (settle ps cid how) id = some (PromiseState.settled how0) := by
  by_cases hc : id = cid
  · subst hc
    exact lookupPromise_settle_settled hs how
  · rw [lookupPromise_settle_ne hc]
    exact hs

/-- A settled promise keeps its settlement value across every step of the
system: no event can re-settle or un-settle it. -/
lemma settled_mono {s t : Sys} {e : Event} (h : step s e = some t)
    {id : String} {how : Settler}
    (hs : lookupPromise s.promises id = some (PromiseState.settled how)) :
    lookupPromise t.promises id = some (PromiseState.settled how) := by
  cases e with
  | transportOpen =>
    simp only [step] at h
    split at h
    · simp only [Option.some.injEq] at h
      subst h
      exact hs
    · exact absurd h (by simp)
  | transportMessage pr =>
    simp only [step] at h
    split at h
    · simp only [Option.some.injEq] at h
      subst h
      cases pr with
      | parseError => exact hs
      | parsed v =>
        rcases hm : s.client.responsePromises with _ | ⟨⟨cid, entry⟩, rest⟩
        · rw [show handleMessage s (ParseResult.parsed v) = s by
            simp [handleMessage, hm]]
          exact hs
        · rw [handleMessage_cons hm v]
          exact lookupPromise_settle_preserves _ hs
    · exact absurd h (by simp)
  | transportClose reason =>
    simp only [step] at h
    split at h
    · simp only [Option.some.injEq] at h
      subst h
      show lookupPromise (handleDisconnect
        { s with client := { s.client with ws := some ReadyState.CLOSED } }
          reason).promises id = some (PromiseState.settled how)
      unfold handleDisconnect
      split
      · exact hs
      · exact lookup_foldSettle_settled _ _ hs
    · exact absurd h (by simp)
  | timeoutFire th tid =>
    simp only [step] at h
    split at h
    · simp only [Option.some.injEq] at h
      subst h
      exact lookupPromise_settle_preserves _ hs
    · exact absurd h (by simp)
  | sendCbFire cid ch cerr =>
    simp only [step] at h
    split at h
    · simp only [Option.some.injEq] at h
      subst h
      cases cerr with
      | false => exact hs
      | true => exact lookupPromise_settle_preserves _ hs
    · exact absurd h (by simp)
  | pingTick pingErr =>
    simp only [step] at h
    split at h
    · simp only [Option.some.injEq] at h
      subst h
      unfold firePingTick
      split
      · exact hs
      · split
        · exact hs
        · exact hs
    · exact absurd h (by simp)
  | reconnectFire =>
    simp only [step] at h
    split at h
    · simp only [Option.some.injEq] at h
      subst h
      exact hs
    · exact absurd h (by simp)
  | callSendCommand reqId =>
    simp only [step] at h
    split at h
    · exact absurd h (by simp)
    · simp only [Option.some.injEq] at h
      subst h
      by_cases hc : isConnected s.client
      · rw [show (sendCommand s reqId).1 =
            { client :=
                { s.client with
                  nextTimer := s.client.nextTimer + 1,
                  armedTimers := (s.client.nextTimer, reqId) :: s.client.armedTimers,
                  responsePromises :=
                    s.client.responsePromises ++ [(reqId, ⟨s.client.nextTimer⟩)],
                  outstandingSends :=
                    (reqId, s.client.nextTimer) :: s.client.outstandingSends },
              promises := s.promises ++ [(reqId, PromiseState.unsettled)] } by
          simp [sendCommand, hc]]
        exact lookupPromise_append_left hs
      · rw [show (sendCommand s reqId).1 = s by simp [sendCommand, hc]]
        exact hs
  | callClose =>
    simp only [step, Option.some.injEq] at h
    subst h
    show lookupPromise (close s).promises id = some (PromiseState.settled how)
    exact lookup_foldSettle_settled _ _ hs

/-! Concrete scenario states used to witness and refute the claims:
connect, handshake completes, then register request "a" and, where needed,
request "b". -/

/-- The state after the socket handshake completes: flag up, socket OPEN,
ping interval armed. -/
def exConnected : Sys := fireOpen initSys

/-- exConnected after sendCommand registers request "a" (timer handle 1). -/
def exPendA : Sys := (sendCommand exConnected "a").1

/-- exPendA after sendCommand registers request "b" (timer handle 2);
"a" is the first (oldest) key of the registry. -/
def exPendAB : Sys := (sendCommand exPendA "b").1

/-- exPendAB after request "a"'s timeout timer fires: "a" is rejected with
the timeout error and removed; "b" is still pending. -/
def exAfterTimeoutA : Sys := fireTimeout exPendAB 1 "a"

/-- A response message whose correlationId field names request "a". -/
def lateResponseForA : Json :=
  Json.obj [("correlationId", Json.str "a"), ("success", Json.bool true)]

/-- A response message whose correlationId field names request "b". -/
def responseForB : Json :=
  Json.obj [("correlationId", Json.str "b"), ("success", Json.bool true)]

lemma reachable_exConnected : Reachable exConnected :=
  Reachable.step Reachable.init
    (show step initSys Event.transportOpen = some exConnected from rfl)

lemma reachable_exPendA : Reachable exPendA :=
  Reachable.step reachable_exConnected
    (show step exConnected (Event.callSendCommand "a") = some exPendA from rfl)

lemma reachable_exPendAB : Reachable exPendAB :=
  Reachable.step reachable_exPendA
    (show step exPendA (Event.callSendCommand "b") = some exPendAB from rfl)

/-- The per-request lifecycle discipline: every registered request id is
either still pending — unsettled, with exactly one armed timeout timer —
or no longer pending and settled with exactly one outcome (the `Settler`
constructors are exactly the settlement sites of the source: matched
response, null-after-parse rejection, timeout, bulk rejection on
disconnect/close, and send-callback error). -/
def RequestLifecycle (s : Sys) : Prop :=
  ∀ id, id ∈ s.promises.map (fun p => p.1) →
    (id ∈ s.client.responsePromises.map (fun e => e.1) ∧
      lookupPromise s.promises id = some PromiseState.unsettled ∧
      ∃ htimer, (htimer, id) ∈ s.client.armedTimers ∧
        s.client.armedTimers.Nodup ∧
        ∀ h2, (h2, id) ∈ s.client.armedTimers → h2 = htimer) ∨
    (id ∉ s.client.responsePromises.map (fun e => e.1) ∧
      ∃ how, lookupPromise s.promises id = some (PromiseState.settled how))

lemma requestLifecycle_of_inv {s : Sys} (hI : Inv s) : RequestLifecycle s := by
  intro id hid
  by_cases hp : id ∈ s.client.responsePromises.map (fun e => e.1)
  · left
    rcases List.mem_map.mp hp with ⟨e, he, hk⟩
    refine ⟨hp, by rw [← hk]; exact hI.pendingUnsettled e he, e.2.timer, ?_,
      hI.timersNodup, ?_⟩
    · exact (hI.timersMatch (e.2.timer, id)).mpr ⟨e, he, hk, rfl⟩
    · intro h2 hmem
      obtain ⟨e2, he2, hk2, ht2⟩ := (hI.timersMatch (h2, id)).mp hmem
      dsimp only at hk2 ht2
      have : e2 = e := entry_unique hI.keysNodup he2 he (hk2.trans hk.symm)
      rw [← ht2, this]
  · right
    exact ⟨hp, hI.nonPendingSettled id hid hp⟩

/-- The shape of the state after close(): no socket, flag down, no
reconnect timer, no ping interval, empty registry, no armed command
timers. -/
def ClosedState (s : Sys) : Prop :=
  s.client.ws = none ∧ s.client.isConnectedFlag = false ∧
  s.client.reconnectTimeoutId = none ∧ s.client.pingIntervalId = none ∧
  s.client.responsePromises = [] ∧ s.client.armedTimers = []

lemma closedState_close {s : Sys} (hI : Inv s) : ClosedState (close s) := by
  refine ⟨rfl, rfl, rfl, rfl, rfl, ?_⟩
  show (rejectPendingPromises
      { client := stopPing (clearReconnectTimer s.client), promises := s.promises }
      "Connection closing.").client.armedTimers = []
  exact rejectPending_armed_nil (fun p hp => (hI.timersMatch p).mp hp)

lemma closedState_step {t u : Sys} {e : Event} (hc : ClosedState t)
    (h : step t e = some u) : ClosedState u := by
  obtain ⟨h1, h2, h3, h4, h5, h6⟩ := hc
  cases e with
  | transportOpen => simp [step, h1] at h
  | transportMessage pr => simp [step, h1] at h
  | transportClose reason => simp [step, h1] at h
  | timeoutFire th tid => simp [step, h6] at h
  | sendCbFire cid ch cerr =>
    simp only [step] at h
    split at h
    · simp only [Option.some.injEq] at h
      subst h
      cases cerr with
      | false =>
        rw [show fireSendCallback t cid ch false =
            { client :=
                { t.client with
                  outstandingSends := removeSend t.client.outstandingSends cid ch },
              promises := t.promises } from rfl]
        exact ⟨h1, h2, h3, h4, h5, h6⟩
      | true =>
        rw [show fireSendCallback t cid ch true =
            { client :=
                { t.client with
                  outstandingSends := removeSend t.client.outstandingSends cid ch,
                  armedTimers := clearTimerHandle t.client.armedTimers ch,
                  responsePromises := mapDelete t.client.responsePromises cid },
              promises := settle t.promises cid Settler.sendFailed } from rfl]
        refine ⟨h1, h2, h3, h4, ?_, ?_⟩
        · show mapDelete t.client.responsePromises cid = []
          rw [h5]
          rfl
        · show clearTimerHandle t.client.armedTimers ch = []
          rw [h6]
          rfl
    · exact absurd h (by simp)
  | pingTick pingErr => simp [step, h4] at h
  | reconnectFire => simp [step, h3] at h
  | callSendCommand reqId =>
    simp only [step] at h
    split at h
    · exact absurd h (by simp)
    · simp only [Option.some.injEq] at h
      subst h
      have hc2 : isConnected t.client = false := by simp [isConnected, h2]
      rw [show (sendCommand t reqId).1 = t by simp [sendCommand, hc2]]
      exact ⟨h1, h2, h3, h4, h5, h6⟩
  | callClose =>
    simp only [step, Option.some.injEq] at h
    subst h
    refine ⟨rfl, rfl, rfl, rfl, rfl, ?_⟩
    show (t.client.responsePromises.foldl
        (fun ts e => clearTimerHandle ts e.2.timer) t.client.armedTimers) = []
    rw [h5, List.foldl_nil]
    exact h6

/-- With the flag up (the state in which a connection can actually be
lost), a transport close or error event takes the full disconnect path:
stop ping, bulk-reject, tear down the socket, schedule a reconnect. -/
lemma fireTransportClose_of_flag {s : Sys}
    (hflag : s.client.isConnectedFlag = true) (reason : String) :
    fireTransportClose s reason =
      { client :=
          scheduleReconnect
            { (rejectPendingPromises
                { client :=
                    stopPing
                      { s.client with
                        ws := some ReadyState.CLOSED,
                        isConnectedFlag := false },
                  promises := s.promises } reason).client with
              ws := none },
        promises :=
          (rejectPendingPromises
            { client :=
                stopPing
                  { s.client with
                    ws := some ReadyState.CLOSED,
                    isConnectedFlag := false },
              promises := s.promises } reason).promises } := by
  unfold fireTransportClose handleDisconnect
  simp [hflag]

/-- With the flag up, a transport close or error event empties the registry
and settles every formerly pending request with the bulk rejection carrying
the disconnect reason. -/
lemma transportClose_spec {s : Sys} (hI : Inv s)
    (hflag : s.client.isConnectedFlag = true) (reason : String) :
    (fireTransportClose s reason).client.responsePromises = [] ∧
    (∀ e ∈ s.client.responsePromises,
      lookupPromise (fireTransportClose s reason).promises e.1 =
        some (PromiseState.settled (Settler.bulkRejected reason))) := by
  rw [fireTransportClose_of_flag hflag reason]
  constructor
  · exact ((scheduleReconnect_fields _).1).trans rfl
  · intro e he
    exact rejectPending_lookup_pending hI.keysNodup hI.pendingUnsettled
      (List.mem_map_of_mem _ he)

/-- C1: the claim says an inbound response carrying correlation id X, with X
in the registry, resolves exactly the pending request X and no other.  The
code instead ignores the message and resolves the FIRST key of the registry
(UnityBridgeClient.ts lines 182-198, marked as a temporary hack).  Here the
registry holds "a" (older) and "b", the message carries correlationId "b",
yet "a" is resolved with that message and "b" stays pending and unsettled. -/
theorem c1_wrong_request_resolved :
    step exPendAB (Event.transportMessage (ParseResult.parsed responseForB)) =
      some (handleMessage exPendAB (ParseResult.parsed responseForB)) ∧
    "b" ∈ exPendAB.client.responsePromises.map (fun e => e.1) ∧
    lookupPromise (handleMessage exPendAB
        (ParseResult.parsed responseForB)).promises "a" =
      some (PromiseState.settled (Settler.matchedResponse responseForB)) ∧
    lookupPromise (handleMessage exPendAB
        (ParseResult.parsed responseForB)).promises "b" =
      some PromiseState.unsettled ∧
    "b" ∈ (handleMessage exPendAB
        (ParseResult.parsed responseForB)).client.responsePromises.map
        (fun e => e.1) ∧
    "a" ∉ (handleMessage exPendAB
        (ParseResult.parsed responseForB)).client.responsePromises.map
        (fun e => e.1) :=
  ⟨rfl, by decide, rfl, rfl, by decide, by decide⟩

/-- C2: every registered request is settled exactly once: in every reachable
state each registered id is either still pending — unsettled with exactly
one armed timeout timer — or settled with exactly one outcome drawn from
the settlement sites (matched response, timeout, bulk rejection, send
failure); and once settled, no further step can change its settlement. -/
theorem c2_settled_exactly_once (s : Sys) (hr : Reachable s) :
    RequestLifecycle s ∧
    ∀ (e : Event) (t : Sys) (id : String) (how : Settler),
      step s e = some t →
      lookupPromise s.promises id = some (PromiseState.settled how) →
      lookupPromise t.promises id = some (PromiseState.settled how) :=
  ⟨requestLifecycle_of_inv (reachable_inv hr),
   fun _ _ _ _ h hs => settled_mono h hs⟩

/-- C2 witness: the lifecycle discipline at a concrete reachable state with
one registered pending request. -/
theorem c2_settled_exactly_once_witness : RequestLifecycle exPendA :=
  (c2_settled_exactly_once exPendA
    (Reachable.step
      (Reachable.step Reachable.init
        (show step initSys Event.transportOpen = some exConnected from rfl))
      (show step exConnected (Event.callSendCommand "a") = some exPendA from
        rfl))).1

/-- C3: a transport close or error while requests are outstanding rejects
every request in the registry with the connection-failure error
Error("Request failed: " ++ reason) and leaves the registry empty. -/
theorem c3_disconnect_rejects_all (s : Sys) (hr : Reachable s)
    (hne : s.client.responsePromises ≠ []) (reason : String) :
    ∃ t, step s (Event.transportClose reason) = some t ∧
      t.client.responsePromises = [] ∧
      (∀ e ∈ s.client.responsePromises,
        lookupPromise t.promises e.1 =
          some (PromiseState.settled (Settler.bulkRejected reason))) ∧
      settlerMessage (Settler.bulkRejected reason) =
        some ("Request failed: " ++ reason) := by
  have hI := reachable_inv hr
  have hflag := hI.flagPending hne
  have hws := hI.flagOpen hflag
  refine ⟨fireTransportClose s reason, ?_,
    (transportClose_spec hI hflag reason).1,
    (transportClose_spec hI hflag reason).2, rfl⟩
  simp [step, hws]

/-- C3 witness: a concrete connected state with request "a" pending,
hit by a transport close event. -/
theorem c3_disconnect_rejects_all_witness :
    ∃ t, step exPendA (Event.transportClose "Connection closed") = some t ∧
      t.client.responsePromises = [] ∧
      (∀ e ∈ exPendA.client.responsePromises,
        lookupPromise t.promises e.1 =
          some (PromiseState.settled (Settler.bulkRejected "Connection closed"))) ∧
      settlerMessage (Settler.bulkRejected "Connection closed") =
        some ("Request failed: " ++ "Connection closed") :=
  c3_disconnect_rejects_all exPendA
    (Reachable.step
      (Reachable.step Reachable.init
        (show step initSys Event.transportOpen = some exConnected from rfl))
      (show step exConnected (Event.callSendCommand "a") = some exPendA from
        rfl))
    (by decide) "Connection closed"

/-- C4: the timeout half of the claim holds ("a" is rejected with the
timeout error and removed from the registry), but the late-response half
fails: a response for the timed-out "a" arriving while "b" is pending is
NOT discarded — the first-key matching resolves "b" with it. -/
theorem c4_late_response_not_discarded :
    step exPendAB (Event.timeoutFire 1 "a") = some exAfterTimeoutA ∧
    lookupPromise exAfterTimeoutA.promises "a" =
      some (PromiseState.settled (Settler.timedOut "a")) ∧
    settlerMessage (Settler.timedOut "a") =
      some "Command (ID: a) timed out after 15000ms" ∧
    "a" ∉ exAfterTimeoutA.client.responsePromises.map (fun e => e.1) ∧
    lookupPromise (handleMessage exAfterTimeoutA
        (ParseResult.parsed lateResponseForA)).promises "b" =
      some (PromiseState.settled (Settler.matchedResponse lateResponseForA)) ∧
    "b" ∉ (handleMessage exAfterTimeoutA
        (ParseResult.parsed lateResponseForA)).client.responsePromises.map
        (fun e => e.1) :=
  ⟨rfl, rfl, rfl, by decide, rfl, by decide⟩

/-- C5: sendCommand called while isConnected() is false rejects
synchronously with the not-connected error and leaves the whole state —
in particular the registry — untouched. -/
theorem c5_send_not_connected (s : Sys) (reqId : String)
    (hc : isConnected s.client = false) :
    sendCommand s reqId = (s, SendCommandResult.rejectedWith notConnectedMsg) := by
  simp [sendCommand, hc]

/-- C5 witness: the freshly constructed (still connecting) client. -/
theorem c5_send_not_connected_witness :
    isConnected initSys.client = false ∧
    sendCommand initSys "x" = (initSys, SendCommandResult.rejectedWith notConnectedMsg) :=
  ⟨rfl, c5_send_not_connected initSys "x" rfl⟩

/-- C6 counterexample: in a connected state with a pending request, a ping
tick whose probe send fails (pingErr = true) leaves the state completely
unchanged — the flag stays up, the registry keeps its pending entry, and no
reconnect is scheduled — so a probe send failure does NOT trigger the
disconnect path as the claim asserts. -/
theorem c6_counterexample :
    isConnected exPendA.client = true ∧
    exPendA.client.pingIntervalId.isSome = true ∧
    exPendA.client.responsePromises ≠ [] ∧
    lookupPromise exPendA.promises "a" = some PromiseState.unsettled ∧
    step exPendA (Event.pingTick true) = some exPendA ∧
    exPendA.client.reconnectTimeoutId = none :=
  ⟨rfl, rfl, by decide, rfl, rfl, rfl⟩

/-- C6 amended: while connected the probe is sent on the fixed 25000ms
interval, and a probe send failure is only logged — the tick leaves the
state unchanged (no disconnect path, no pending rejection, no reconnect);
a tick that runs while not connected schedules a reconnect when none is
pending. -/
theorem c6_ping_failure_only_logged (s : Sys) (hr : Reachable s)
    (pingErr : Bool) (hp : s.client.pingIntervalId.isSome = true) :
    PING_INTERVAL_MS = 25000 ∧
    (isConnected s.client = true → step s (Event.pingTick pingErr) = some s) ∧
    (isConnected s.client = false → s.client.reconnectTimeoutId = none →
      ∃ t, step s (Event.pingTick pingErr) = some t ∧
        t.client.reconnectTimeoutId.isSome = true ∧
        t.client.responsePromises = s.client.responsePromises ∧
        t.promises = s.promises ∧
        t.client.isConnectedFlag = s.client.isConnectedFlag) := by
  refine ⟨rfl, ?_, ?_⟩
  · intro hc
    simp [step, hp, firePingTick, hc]
  · intro hc hrnone
    have hI := reachable_inv hr
    have hflag : s.client.isConnectedFlag = false := by
      cases hb : s.client.isConnectedFlag with
      | false => rfl
      | true =>
        have hws := hI.flagOpen hb
        rw [show isConnected s.client = true from by
          simp [isConnected, hb, hws]] at hc
        exact Bool.noConfusion hc
    refine ⟨{ s with client := scheduleReconnect s.client }, ?_, ?_, ?_, rfl, ?_⟩
    · simp [step, hp, firePingTick, hc, hrnone]
    · show (scheduleReconnect s.client).reconnectTimeoutId.isSome = true
      unfold scheduleReconnect clearReconnectTimer
      simp [hflag]
    · exact (scheduleReconnect_fields s.client).1
    · exact (scheduleReconnect_fields s.client).2.2.2.1

/-- C6 amended, witness: the connected state with request "a" pending and a
failing probe. -/
theorem c6_ping_failure_only_logged_witness :
    PING_INTERVAL_MS = 25000 ∧
    (isConnected exPendA.client = true →
      step exPendA (Event.pingTick true) = some exPendA) ∧
    (isConnected exPendA.client = false →
      exPendA.client.reconnectTimeoutId = none →
      ∃ t, step exPendA (Event.pingTick true) = some t ∧
        t.client.reconnectTimeoutId.isSome = true ∧
        t.client.responsePromises = exPendA.client.responsePromises ∧
        t.promises = exPendA.promises ∧
        t.client.isConnectedFlag = exPendA.client.isConnectedFlag) :=
  c6_ping_failure_only_logged exPendA
    (Reachable.step
      (Reachable.step Reachable.init
        (show step initSys Event.transportOpen = some exConnected from rfl))
      (show step exConnected (Event.callSendCommand "a") = some exPendA from
        rfl))
    true rfl

/-- C7: close() cancels the reconnect timer, stops the keepalive, empties
the registry, clears all timers and drops the socket (ClosedState), and
ClosedState is preserved by EVERY enabled event thereafter: no later step
re-arms a reconnect timer or creates a socket, so no connection attempt
can ever start again without a fresh explicit connect. -/
theorem c7_close_is_final (s : Sys) (hr : Reachable s) :
    ClosedState (close s) ∧
    ∀ (t u : Sys) (e : Event), ClosedState t → step t e = some u → ClosedState u :=
  ⟨closedState_close (reachable_inv hr),
   fun _ _ _ hc h => closedState_step hc h⟩

/-- C7 witness: closing the freshly constructed client. -/
theorem c7_close_is_final_witness : ClosedState (close initSys) :=
  (c7_close_is_final initSys Reachable.init).1

/-- C8: a JSON.parse failure on inbound bytes is caught inside
handleMessage; it leaves the entire state unchanged — registry untouched,
no promise settled, socket and flags exactly as before — and in particular
it does not throw and does not close the connection. -/
theorem c8_parse_failure_is_noop (s : Sys) :
    handleMessage s ParseResult.parseError = s := rfl

/-- C9: an inbound message that parses to the JSON literal null is not
discarded when the registry is non-empty: the matched (first) pending
request is rejected with Error("Received null response after parsing.")
and its entry is removed from the registry. -/
theorem c9_null_rejects_matched (s : Sys) (hr : Reachable s) (cid : String)
    (entry : PendingRequest) (rest : List (String × PendingRequest))
    (hm : s.client.responsePromises = (cid, entry) :: rest) :
    lookupPromise (handleMessage s (ParseResult.parsed Json.null)).promises cid =
      some (PromiseState.settled Settler.nullAfterParse) ∧
    cid ∉ (handleMessage s
        (ParseResult.parsed Json.null)).client.responsePromises.map
        (fun e => e.1) ∧
    settlerMessage Settler.nullAfterParse =
      some "Received null response after parsing." := by
  have hI := reachable_inv hr
  have hcu : lookupPromise s.promises cid = some PromiseState.unsettled :=
    hI.pendingUnsettled (cid, entry) (by rw [hm]; exact List.mem_cons_self _ _)
  rw [handleMessage_cons hm Json.null]
  refine ⟨?_, ?_, rfl⟩
  · exact lookupPromise_settle_unsettled hcu _
  · intro hinkeys
    rcases List.mem_map.mp hinkeys with ⟨e, he, hk⟩
    exact (mem_mapDelete.mp he).2 hk

/-- C9 witness: the connected state with request "a" pending receiving the
wire text null. -/
theorem c9_null_rejects_matched_witness :
    lookupPromise (handleMessage exPendA
        (ParseResult.parsed Json.null)).promises "a" =
      some (PromiseState.settled Settler.nullAfterParse) ∧
    "a" ∉ (handleMessage exPendA
        (ParseResult.parsed Json.null)).client.responsePromises.map
        (fun e => e.1) ∧
    settlerMessage Settler.nullAfterParse =
      some "Received null response after parsing." :=
  c9_null_rejects_matched exPendA
    (Reachable.step
      (Reachable.step Reachable.init
        (show step initSys Event.transportOpen = some exConnected from rfl))
      (show step exConnected (Event.callSendCommand "a") = some exPendA from
        rfl))
    "a" ⟨1⟩ [] rfl

/-- C10: after close() the client stays in ClosedState along every possible
sequence of further steps; in every such state isConnected() is false and
every sendCommand call rejects synchronously with the not-connected error
(connect is private: the only transitions that could re-create a socket —
the reconnect timer and the ping tick — are permanently disarmed). -/
theorem c10_no_reconnect_after_close (s : Sys) (hr : Reachable s) :
    ∀ u, Steps (close s) u →
      ClosedState u ∧ isConnected u.client = false ∧
      ∀ reqId, sendCommand u reqId =
        (u, SendCommandResult.rejectedWith notConnectedMsg) := by
  have hclosed := closedState_close (reachable_inv hr)
  intro u hu
  have hcu : ClosedState u := by
    induction hu with
    | refl => exact hclosed
    | tail _ hstep ih => exact closedState_step ih hstep
  have hcon : isConnected u.client = false := by simp [isConnected, hcu.2.1]
  exact ⟨hcu, hcon, fun reqId => by simp [sendCommand, hcon]⟩

/-- C10 witness: immediately after closing the freshly constructed
client. -/
theorem c10_no_reconnect_after_close_witness :
    isConnected (close initSys).client = false ∧
    sendCommand (close initSys) "x" =
      (close initSys, SendCommandResult.rejectedWith notConnectedMsg) :=
  ⟨(c10_no_reconnect_after_close initSys Reachable.init (close initSys)
      Steps.refl).2.1,
   (c10_no_reconnect_after_close initSys Reachable.init (close initSys)
      Steps.refl).2.2 "x"⟩

end UnityBridge
